import Mathlib

/-!
Verification development for the CompressedGameNotation repository
(a chess-aware PGN codec family: a bincode+zlib fallback codec, a static
Huffman move codec, and an adaptive per-color dynamic Huffman move codec).

The repository's own bit-level logic (framing, the codec loops, the move
scoring key, the baseline weight table) is embedded directly from the Rust
source.  External collaborators (the shakmaty chess engine, the
huffman_compress crate, zlib/bincode serialization, the pgn_reader parser)
are modelled at their interfaces: as abstract function parameters together
with the interface facts the source relies on, stated as hypotheses.

Bit vectors (the bit_vec::BitVec type) are modelled as `List Bool`, with
bit 0 the head of the list; bytes are `Nat` values below 256.  SAN tokens,
moves and positions of the external chess engine are opaque values,
modelled as `Nat` codes behind the `ChessAdapter` interface.
-/

set_option maxRecDepth 4000

namespace CGN

/-- Failure outcomes of a fallible Rust operation.  `err` models a returned
`Err(...)` value (an anyhow error); `crash` models a Rust panic (such as an
out-of-bounds index), which is not a returned value. -/
inductive Fail where
  | err (msg : String) : Fail
  | crash (msg : String) : Fail
deriving DecidableEq, Repr

/-- Result of a fallible Rust operation. -/
abbrev Res (α : Type) := Except Fail α

/-- True exactly on outcomes that model a Rust panic. -/
def isCrash {α : Type} : Res α → Bool
  | .error (.crash _) => true
  | _ => false

/-! ## Bits and bytes

`byteToBits`/`bytesToBits` model `BitVec::from_bytes` (most significant bit
of each byte first); `byteFromBits`/`bitsToBytes` model `BitVec::to_bytes`
(an incomplete trailing chunk is padded with 0 bits at the low end). -/

/-- The 8 bits of one byte, most significant first (`BitVec::from_bytes`). -/
def byteToBits (b : Nat) : List Bool :=
  (List.range 8).map (fun k => b.testBit (7 - k))

/-- `BitVec::from_bytes`: concatenate the bits of every byte. -/
def bytesToBits (bs : List Nat) : List Bool :=
  bs.flatMap byteToBits

/-- Value of a list of at most 8 bits read most-significant-first, with
missing low bits treated as 0 (one output byte of `BitVec::to_bytes`). -/
def byteFromBits (l : List Bool) : Nat :=
  (l.foldl (fun a b => 2 * a + (if b then 1 else 0)) 0) * 2 ^ (8 - l.length)

/-- `BitVec::to_bytes`: chunk the bits into bytes of 8, padding the final
chunk with 0 bits. -/
def bitsToBytes (l : List Bool) : List Nat :=
  if l = [] then []
  else byteFromBits (l.take 8) :: bitsToBytes (l.drop 8)
  termination_by l.length
  decreasing_by
    simp only [List.length_drop]
    cases l with
    | nil => simp_all
    | cons a l => simp; omega

/-- `i8_to_bit_vec` from `compression/utils/mod.rs`: the 8 bits of a signed
byte, most significant (sign) bit first, via arithmetic right shifts. -/
def i8_to_bit_vec (i : Int) : List Bool :=
  (List.range 8).map (fun k => (Int.fdiv i (2 ^ (7 - k))) % 2 = 1)

/-- `get_bitvec_slice` from `compression/utils/mod.rs`: bits from `start`
(inclusive) to `stop` (exclusive), or an error on invalid indices. -/
def get_bitvec_slice (bv : List Bool) (start stop : Nat) : Res (List Bool) :=
  if start > stop ∨ start > bv.length ∨ stop > bv.length then
    .error (.err "get_bitvec_slice() - Invalid indices found")
  else
    .ok ((bv.drop start).take (stop - start))

/-- The fold in `decompress_headers` that reads the first (up to) 8 bits of
the buffer as an unsigned byte value, most significant bit first. -/
def readHeaderLen (bv : List Bool) : Nat :=
  ((bv.take 8).enum).foldl
    (fun byte p => if p.2 then byte ||| Nat.shiftLeft 1 (7 - p.1) else byte) 0

/-! ## Baseline weight table

`get_lichess_hashmap` from `compression_utils/huffman_codes.rs`: the
empirical Lichess move-rank histogram.  The Rust function builds a
`HashMap<u8, u32>` by inserting the keys 0..=255 in order; since the keys
are distinct, the map is modelled as the association list of the inserted
(key, weight) pairs in insertion order. -/

/-- The 256 (symbol index, weight) pairs inserted by `get_lichess_hashmap`. -/
def get_lichess_hashmap : List (Nat × Nat) := [
  (0, 225883932), (1, 134956126), (2, 89041269), (3, 69386238), (4, 57040790), (5, 44974559), (6, 36547155), (7, 31624920),
  (8, 28432772), (9, 26540493), (10, 24484873), (11, 23058034), (12, 23535272), (13, 20482457), (14, 20450172), (15, 18316057),
  (16, 17214833), (17, 16964761), (18, 16530028), (19, 15369510), (20, 14178440), (21, 14275714), (22, 13353306), (23, 12829602),
  (24, 13102592), (25, 11932647), (26, 10608657), (27, 10142459), (28, 8294594), (29, 7337490), (30, 6337744), (31, 5380717),
  (32, 4560556), (33, 3913313), (34, 3038767), (35, 2480514), (36, 1951026), (37, 1521451), (38, 1183252), (39, 938708),
  (40, 673339), (41, 513153), (42, 377299), (43, 276996), (44, 199682), (45, 144602), (46, 103313), (47, 73046),
  (48, 52339), (49, 36779), (50, 26341), (51, 18719), (52, 13225), (53, 9392), (54, 6945), (55, 4893),
  (56, 3698), (57, 2763), (58, 2114), (59, 1631), (60, 1380), (61, 1090), (62, 887), (63, 715),
  (64, 590), (65, 549), (66, 477), (67, 388), (68, 351), (69, 319), (70, 262), (71, 236),
  (72, 200), (73, 210), (74, 153), (75, 117), (76, 121), (77, 121), (78, 115), (79, 95),
  (80, 75), (81, 67), (82, 55), (83, 50), (84, 55), (85, 33), (86, 33), (87, 30),
  (88, 32), (89, 28), (90, 29), (91, 27), (92, 21), (93, 15), (94, 9), (95, 10),
  (96, 12), (97, 12), (98, 8), (99, 7), (100, 2), (101, 4), (102, 5), (103, 5),
  (104, 0), (105, 5), (106, 1), (107, 1), (108, 0), (109, 1), (110, 2), (111, 1),
  (112, 1), (113, 0), (114, 0), (115, 1), (116, 0), (117, 0), (118, 0), (119, 0),
  (120, 0), (121, 0), (122, 0), (123, 0), (124, 0), (125, 0), (126, 0), (127, 0),
  (128, 0), (129, 0), (130, 0), (131, 0), (132, 0), (133, 0), (134, 0), (135, 0),
  (136, 0), (137, 0), (138, 0), (139, 0), (140, 0), (141, 0), (142, 0), (143, 0),
  (144, 0), (145, 0), (146, 0), (147, 0), (148, 0), (149, 0), (150, 0), (151, 0),
  (152, 0), (153, 0), (154, 0), (155, 0), (156, 0), (157, 0), (158, 0), (159, 0),
  (160, 0), (161, 0), (162, 0), (163, 0), (164, 0), (165, 0), (166, 0), (167, 0),
  (168, 0), (169, 0), (170, 0), (171, 0), (172, 0), (173, 0), (174, 0), (175, 0),
  (176, 0), (177, 0), (178, 0), (179, 0), (180, 0), (181, 0), (182, 0), (183, 0),
  (184, 0), (185, 0), (186, 0), (187, 0), (188, 0), (189, 0), (190, 0), (191, 0),
  (192, 0), (193, 0), (194, 0), (195, 0), (196, 0), (197, 0), (198, 0), (199, 0),
  (200, 0), (201, 0), (202, 0), (203, 0), (204, 0), (205, 0), (206, 0), (207, 0),
  (208, 0), (209, 0), (210, 0), (211, 0), (212, 0), (213, 0), (214, 0), (215, 0),
  (216, 0), (217, 0), (218, 0), (219, 0), (220, 0), (221, 0), (222, 0), (223, 0),
  (224, 0), (225, 0), (226, 0), (227, 0), (228, 0), (229, 0), (230, 0), (231, 0),
  (232, 0), (233, 0), (234, 0), (235, 0), (236, 0), (237, 0), (238, 0), (239, 0),
  (240, 0), (241, 0), (242, 0), (243, 0), (244, 0), (245, 0), (246, 0), (247, 0),
  (248, 0), (249, 0), (250, 0), (251, 0), (252, 0), (253, 0), (254, 0), (255, 0)
]

/-! ## Move scoring (`compression/huffman/score_move.rs`)

`move_score` consumes a shakmaty `Move` only through the accessors
`role()`, `from()`, `to()`, `promotion()`, `is_capture()`, and a position
only through `turn()`, `board().pawns()` and `them()`.  `MoveView` and
`PosView` record exactly those accessor values: squares are 0..63 with
A1 = 0 and H8 = 63, bitboards are naturals whose bit `s` is square `s`. -/

/-- The shakmaty piece roles. -/
inductive Role where
  | pawn | knight | bishop | rook | queen | king
deriving DecidableEq, Repr

/-- `i32::from(Role)` in shakmaty: pawn = 1 through king = 6. -/
def roleValue : Role → Int
  | .pawn => 1
  | .knight => 2
  | .bishop => 3
  | .rook => 4
  | .queen => 5
  | .king => 6

/-- `Role as usize - 1`, the row index into `LICHESS_TABLES`. -/
def roleIndex : Role → Nat
  | .pawn => 0
  | .knight => 1
  | .bishop => 2
  | .rook => 3
  | .queen => 4
  | .king => 5

/-- Accessor view of a shakmaty `Move`: `role()`, `from()` (present for
every legal chess move), `to()`, `capture()` and `promotion()`. -/
structure MoveView where
  role : Role
  mfrom : Nat
  mto : Nat
  capture : Option Role
  promotion : Option Role
deriving DecidableEq, Repr

/-- Accessor view of a position as used by `move_score`: `turn()` (true =
white), `board().pawns()` and `them()` as bitboards. -/
structure PosView where
  whiteTurn : Bool
  pawns : Nat
  them : Nat
deriving DecidableEq, Repr

/-- `LICHESS_TABLES` from `compression/huffman/score_move.rs`: the six
piece-square tables (pawn, knight, bishop, rook, queen, king), 64 entries
each, in board order rank 8 down to rank 1. -/
def LICHESS_TABLES : List (List Int) := [
  [
    0, 0, 0, 0, 0, 0, 0, 0,
    50, 50, 50, 50, 50, 50, 50, 50,
    10, 10, 20, 30, 30, 20, 10, 10,
    5, 5, 10, 25, 25, 10, 5, 5,
    0, 0, 0, 20, 21, 0, 0, 0,
    5, -5, -10, 0, 0, -10, -5, 5,
    5, 10, 10, -31, -31, 10, 10, 5,
    0, 0, 0, 0, 0, 0, 0, 0],
  [
    -50, -40, -30, -30, -30, -30, -40, -50,
    -40, -20, 0, 0, 0, 0, -20, -40,
    -30, 0, 10, 15, 15, 10, 0, -30,
    -30, 5, 15, 20, 20, 15, 5, -30,
    -30, 0, 15, 20, 20, 15, 0, -30,
    -30, 5, 10, 15, 15, 11, 5, -30,
    -40, -20, 0, 5, 5, 0, -20, -40,
    -50, -40, -30, -30, -30, -30, -40, -50],
  [
    -20, -10, -10, -10, -10, -10, -10, -20,
    -10, 0, 0, 0, 0, 0, 0, -10,
    -10, 0, 5, 10, 10, 5, 0, -10,
    -10, 5, 5, 10, 10, 5, 5, -10,
    -10, 0, 10, 10, 10, 10, 0, -10,
    -10, 10, 10, 10, 10, 10, 10, -10,
    -10, 5, 0, 0, 0, 0, 5, -10,
    -20, -10, -10, -10, -10, -10, -10, -20],
  [
    0, 0, 0, 0, 0, 0, 0, 0,
    5, 10, 10, 10, 10, 10, 10, 5,
    -5, 0, 0, 0, 0, 0, 0, -5,
    -5, 0, 0, 0, 0, 0, 0, -5,
    -5, 0, 0, 0, 0, 0, 0, -5,
    -5, 0, 0, 0, 0, 0, 0, -5,
    -5, 0, 0, 0, 0, 0, 0, -5,
    0, 0, 0, 5, 5, 0, 0, 0],
  [
    -20, -10, -10, -5, -5, -10, -10, -20,
    -10, 0, 0, 0, 0, 0, 0, -10,
    -10, 0, 5, 5, 5, 5, 0, -10,
    -5, 0, 5, 5, 5, 5, 0, -5,
    0, 0, 5, 5, 5, 5, 0, -5,
    -10, 5, 5, 5, 5, 5, 0, -10,
    -10, 0, 5, 0, 0, 0, 0, -10,
    -20, -10, -10, -5, -5, -10, -10, -20],
  [
    -30, -40, -40, -50, -50, -40, -40, -30,
    -30, -40, -40, -50, -50, -40, -40, -30,
    -30, -40, -40, -50, -50, -40, -40, -30,
    -30, -40, -40, -50, -50, -40, -40, -30,
    -20, -30, -30, -40, -40, -30, -30, -20,
    -10, -20, -20, -20, -20, -20, -20, -10,
    20, 20, 0, 0, 0, 0, 20, 20,
    0, 30, 10, 0, 0, 10, 30, 0]
]

/-- `shakmaty::attacks::pawn_attacks(color, sq)`: the bitboard of squares a
pawn of the given color standing on `sq` attacks. -/
def pawnAttacksBB (white : Bool) (sq : Nat) : Nat :=
  let f := sq % 8
  let r := sq / 8
  if white then
    (if 0 < f ∧ r < 7 then 2 ^ (sq + 7) else 0) +
      (if f < 7 ∧ r < 7 then 2 ^ (sq + 9) else 0)
  else
    (if f < 7 ∧ 0 < r then 2 ^ (sq - 7) else 0) +
      (if 0 < f ∧ 0 < r then 2 ^ (sq - 9) else 0)

/-- `promotion_score`: 0 for no promotion, 1 knight, 2 bishop, 3 rook,
4 queen (`PieceScore::from(m.promotion().unwrap_or(Role::Pawn)) - 1`). -/
def promotion_score (m : MoveView) : Int :=
  roleValue (m.promotion.getD Role.pawn) - 1

/-- `capture_score`: 1 if the move captures, else 0. -/
def capture_score (m : MoveView) : Int :=
  if m.capture.isSome then 1 else 0

/-- `pawn_defense_score`: if any enemy pawn attacks the destination square,
`6 - role value of the moved piece`, else 6. -/
def pawn_defense_score (pos : PosView) (m : MoveView) : Int :=
  if pawnAttacksBB pos.whiteTurn m.mto &&& pos.pawns &&& pos.them ≠ 0 then
    6 - roleValue m.role
  else 6

/-- `pst_score`: piece-square-table entry of the piece on the square,
vertically flipped (square XOR 56) for white pieces. -/
def pst_score (white : Bool) (r : Role) (sq : Nat) : Int :=
  let s := if white then sq ^^^ 56 else sq
  (LICHESS_TABLES.getD (roleIndex r) []).getD s 0

/-- `move_pst_score`: `512 + PST[role][to] - PST[role][from]`. -/
def move_pst_score (turn : Bool) (m : MoveView) : Int :=
  512 + pst_score turn m.role m.mto - pst_score turn m.role m.mfrom

/-- `move_score` from `compression/huffman/score_move.rs`: the packed rank
key `(promotion << 26) + (capture << 25) + (pawn_defense << 24) +
(pst << 12) + (to << 6) + from`. -/
def move_score (pos : PosView) (m : MoveView) : Int :=
  promotion_score m * 2 ^ 26 + capture_score m * 2 ^ 25 +
    pawn_defense_score pos m * 2 ^ 24 +
    move_pst_score pos.whiteTurn m * 2 ^ 12 +
    (m.mto : Int) * 2 ^ 6 + (m.mfrom : Int)

/-- The spec-side 6-field tuple of a move: (promotion tier, is-capture,
pawn-defense, piece-square-table delta, destination, source). -/
def specTuple6 (pos : PosView) (m : MoveView) : Int × Int × Int × Int × Int × Int :=
  (promotion_score m, capture_score m, pawn_defense_score pos m,
    move_pst_score pos.whiteTurn m, (m.mto : Int), (m.mfrom : Int))

/-- Strict lexicographic comparison of the spec-side 6-field tuples,
most-significant field first. -/
def lexLt6 (pos : PosView) (a b : MoveView) : Prop :=
  promotion_score a < promotion_score b ∨
    (promotion_score a = promotion_score b ∧
      (capture_score a < capture_score b ∨
        (capture_score a = capture_score b ∧
          (pawn_defense_score pos a < pawn_defense_score pos b ∨
            (pawn_defense_score pos a = pawn_defense_score pos b ∧
              (move_pst_score pos.whiteTurn a < move_pst_score pos.whiteTurn b ∨
                (move_pst_score pos.whiteTurn a = move_pst_score pos.whiteTurn b ∧
                  ((a.mto : Int) < (b.mto : Int) ∨
                    ((a.mto : Int) = (b.mto : Int) ∧
                      (a.mfrom : Int) < (b.mfrom : Int))))))))))

instance (pos : PosView) (a b : MoveView) : Decidable (lexLt6 pos a b) := by
  unfold lexLt6; infer_instance

/-- The merged most-significant field actually realized by the packed key:
`4*promotion + 2*capture + pawn_defense` (the three top fields overlap in
bits 24..28 of the packed integer and their sum is what is compared). -/
def msbField (pos : PosView) (m : MoveView) : Int :=
  4 * promotion_score m + 2 * capture_score m + pawn_defense_score pos m

/-- Strict lexicographic comparison of the realized 4-field tuples
(merged top field, piece-square-table delta, destination, source). -/
def lexLt4 (pos : PosView) (a b : MoveView) : Prop :=
  msbField pos a < msbField pos b ∨
    (msbField pos a = msbField pos b ∧
      (move_pst_score pos.whiteTurn a < move_pst_score pos.whiteTurn b ∨
        (move_pst_score pos.whiteTurn a = move_pst_score pos.whiteTurn b ∧
          ((a.mto : Int) < (b.mto : Int) ∨
            ((a.mto : Int) = (b.mto : Int) ∧
              (a.mfrom : Int) < (b.mfrom : Int))))))

instance (pos : PosView) (a b : MoveView) : Decidable (lexLt4 pos a b) := by
  unfold lexLt4; infer_instance

/-- Counterexample position for C2, legal position with FEN
`4k3/8/8/1p6/p7/8/8/R3K3 w - - 0 1`: white Ra1 and Ke1, black Ke8 and
pawns a4, b5, white to move.  Pawns occupy squares 24 (a4) and 33 (b5);
black occupies 24, 33 and 60 (e8). -/
def cexPos : PosView :=
  { whiteTurn := true
    pawns := 2 ^ 24 + 2 ^ 33
    them := 2 ^ 24 + 2 ^ 33 + 2 ^ 60 }

/-- The legal move Ra1xa4 in `cexPos`: a rook capture of a pawn whose
square is defended by the black pawn on b5. -/
def cexRookCapture : MoveView :=
  { role := Role.rook, mfrom := 0, mto := 24
    capture := some Role.pawn, promotion := none }

/-- The legal move Ke1-d1 in `cexPos`: a quiet king move to an undefended
square. -/
def cexKingMove : MoveView :=
  { role := Role.king, mfrom := 4, mto := 3
    capture := none, promotion := none }

/-! ## The chess-engine adapter interface

The shakmaty chess engine is external to the repository.  Positions, moves
and SAN tokens are opaque `Nat` codes; the adapter supplies exactly the
operations the codecs call.  The scoring key used to sort the legal-move
list is a field of the adapter because the real key, `move_score`, is
computed on the engine move representation. -/

structure ChessAdapter where
  /-- `Chess::default()`, the initial position. -/
  init : Nat
  /-- `pos.legal_moves()` in the generator's internal order. -/
  legalMoves : Nat → List Nat
  /-- the `move_score` key of a move in a position. -/
  score : Nat → Nat → Int
  /-- `pos.play_unchecked(m)`. -/
  play : Nat → Nat → Nat
  /-- `san.to_move(&pos)`, failing on illegal input. -/
  sanToMove : Nat → Nat → Option Nat
  /-- the SAN produced by `SanPlus::from_move_and_play_unchecked`. -/
  sanFromMove : Nat → Nat → Nat
  /-- `pos.is_checkmate()`. -/
  isCheckmate : Nat → Bool
  /-- `pos.is_stalemate()`. -/
  isStalemate : Nat → Bool

/-- Modelled from the spec: `generate_moves` (its file
`compression/utils/score_move.rs` is not under src/) returns all legal
moves sorted ascending by the `move_score` key (spec 4.1), via a stable
sort. -/
def generate_moves (env : ChessAdapter) (pos : Nat) : List Nat :=
  List.insertionSort (fun a b => env.score pos a ≤ env.score pos b) (env.legalMoves pos)

/-- Modelled from the spec: `get_move_index` (same missing file) returns
the position of the move within the sorted legal-move list (spec 4.1). -/
def get_move_index (env : ChessAdapter) (pos m : Nat) : Option Nat :=
  (generate_moves env pos).findIdx? (fun x => x == m)

/-! ## The Huffman-coding interface

The huffman_compress crate is external.  A `Huffman` value models the
(Book, Tree) pair built from one weight table: `enc` is the codeword of a
symbol (`Book::encode`), `decOne` walks the tree on the front of a bit
buffer and yields the first symbol, or `none` if the buffer is exhausted
mid-codeword (`Tree::decoder(...).next()`).  Every Huffman codeword over a
256-symbol alphabet is nonempty, and nothing decodes from an empty buffer;
both facts are part of the interface. -/

structure Huffman where
  enc : Nat → List Bool
  decOne : List Bool → Option Nat
  enc_ne : ∀ i, enc i ≠ []
  dec_nil : decOne [] = none

/-- A per-color weight table of the dynamic codec (`HashMap<u8, u64>`,
dense on keys 0..=255), as the list of its 256 weights. -/
abbrev Table := List Nat

/-- Modelled from the spec: the baseline u64 weight table of the dynamic
codec (its file `compression/utils/huffman_codes.rs` is not under src/) is
the same empirical Lichess vector as `get_lichess_hashmap` (spec 4.2). -/
def baseline_weights : Table :=
  get_lichess_hashmap.map Prod.snd

/-! ## Headers and framing (`compression/utils/mod.rs`)

`serH` abstracts `bincode::serialize_into` a `ZlibEncoder` (the compressed
header block as bytes); `deserH` abstracts the matching decode. -/

/-- Modelled from the spec: the `PgnHeaders` struct (its file is not under
src/) holds the seven mandatory tag strings (spec 3). -/
structure PgnHeaders where
  event : String
  site : String
  date : String
  round : String
  white : String
  black : String
  result : String
deriving DecidableEq, Repr

/-- `PgnHeaders::new()`: all seven strings empty. -/
def PgnHeaders.new : PgnHeaders :=
  ⟨"", "", "", "", "", "", ""⟩

/-- Modelled from the spec: `PgnHeaders::is_empty` holds when all seven
strings are empty (spec 4.3 ambiguity guard). -/
def PgnHeaders.is_empty (h : PgnHeaders) : Bool :=
  h.event = "" && h.site = "" && h.date = "" && h.round = "" &&
    h.white = "" && h.black = "" && h.result = ""

/-- `PgnData`: the seven headers plus the SAN move list (SAN tokens are
opaque `Nat` codes). -/
structure PgnData where
  headers : PgnHeaders
  moves : List Nat
deriving DecidableEq, Repr

/-- Modelled from the spec: `PgnData::is_empty` holds when the headers are
empty and the move list is empty. -/
def PgnData.is_empty (g : PgnData) : Bool :=
  g.headers.is_empty && g.moves.isEmpty

/-- `compress_headers`: an empty bit vector for empty headers, else the
zlib-compressed serialized headers as bits. -/
def compress_headers (serH : PgnHeaders → List Nat) (g : PgnData) : List Bool :=
  if g.headers.is_empty then []
  else bytesToBits (serH g.headers)

/-- `decompress_headers`: reads bit 0 (a panic on an empty buffer — the
Rust code indexes `bit_vec[0]` unconditionally); on 1 returns empty
headers and offset 0; on 0 reads the byte length `L` from bits 0..8,
slices the header block, inflates and deserializes it, and returns the
headers together with the bit offset `(L + 1) * 8`. -/
def decompress_headers (deserH : List Nat → Option PgnHeaders) (bv : List Bool) :
    Res (PgnHeaders × Nat) :=
  match bv with
  | [] => .error (.crash "index out of bounds: bit_vec[0] on empty bit vector")
  | b0 :: _ =>
    if b0 then .ok (PgnHeaders.new, 0)
    else
      let len := readHeaderLen bv
      match get_bitvec_slice bv 8 ((len + 1) * 8) with
      | .error e => .error e
      | .ok headerBits =>
        match deserH (bitsToBytes headerBits) with
        | none => .error (.err "failed to deserialize headers")
        | some h => .ok (h, (len + 1) * 8)

/-! ## Static Huffman codec (`compression/huffman.rs`) -/

namespace Huffman

/-- `GameEncoder::encode` iterated over the SAN list (`compress_moves`):
each SAN is converted to a move on the current position, ranked, bounded
to a u8, Huffman-encoded, and played. -/
def compress_moves (env : ChessAdapter) (hc : CGN.Huffman) :
    Nat → List Nat → Res (List Bool)
  | _, [] => .ok []
  | pos, s :: rest =>
    match env.sanToMove pos s with
    | none => .error (.err "san to_move failed: illegal move in input")
    | some m =>
      match get_move_index env pos m with
      | none => .error (.err "Move not found")
      | some i =>
        if 256 ≤ i then .error (.err "out of range integral type conversion attempted")
        else
          match compress_moves env hc (env.play pos m) rest with
          | .error e => .error e
          | .ok bs => .ok (hc.enc i ++ bs)

/-- `compress_pgn_data`: compress headers and moves, then frame them with
either the 1-bit no-headers marker or the 8-bit signed byte length. -/
def compress_pgn_data (env : ChessAdapter) (hc : CGN.Huffman)
    (serH : PgnHeaders → List Nat) (g : PgnData) : Res (List Bool) :=
  let headers := compress_headers serH g
  match compress_moves env hc env.init g.moves with
  | .error e => .error e
  | .ok moves =>
    if headers = [] then
      .ok (true :: (headers ++ moves))
    else
      let L := (bitsToBytes headers).length
      if 127 < L then .error (.err "out of range integral type conversion attempted")
      else .ok (i8_to_bit_vec (Int.ofNat L) ++ (headers ++ moves))

/-- `GameDecoder::decode_all`: pull symbols off the bit buffer one
codeword at a time; each decoded index selects a move from the sorted
legal-move list, which is played and rendered back to SAN; iteration ends
when the buffer yields no further symbol. -/
def decompress_moves (env : ChessAdapter) (hc : CGN.Huffman)
    (pos : Nat) (bits : List Bool) : Res (List Nat) :=
  match h : hc.decOne bits with
  | none => .ok []
  | some i =>
    match (generate_moves env pos)[i]? with
    | none => .error (.err "Failed to decode move")
    | some m =>
      match decompress_moves env hc (env.play pos m) (bits.drop (hc.enc i).length) with
      | .error e => .error e
      | .ok sans => .ok (env.sanFromMove pos m :: sans)
  termination_by bits.length
  decreasing_by
    have hb : bits ≠ [] := by
      intro hnil
      rw [hnil, hc.dec_nil] at h
      cases h
    have h1 : 0 < (hc.enc i).length := List.length_pos.2 (hc.enc_ne i)
    have h2 : 0 < bits.length := List.length_pos.2 hb
    simp only [List.length_drop]
    omega

/-- `decompress_pgn_data`: undo the framing, then decode the move body. -/
def decompress_pgn_data (env : ChessAdapter) (hc : CGN.Huffman)
    (deserH : List Nat → Option PgnHeaders) (bv : List Bool) : Res PgnData :=
  match decompress_headers deserH bv with
  | .error e => .error e
  | .ok (h, headerBitsLen) =>
    if headerBitsLen = 0 then
      match get_bitvec_slice bv 1 bv.length with
      | .error e => .error e
      | .ok moveBits =>
        match decompress_moves env hc env.init moveBits with
        | .error e => .error e
        | .ok sans => .ok ⟨h, sans⟩
    else
      match get_bitvec_slice bv headerBitsLen bv.length with
      | .error e => .error e
      | .ok moveBits =>
        match decompress_moves env hc env.init moveBits with
        | .error e => .error e
        | .ok sans => .ok ⟨h, sans⟩

end Huffman

/-! ## Dynamic Huffman codec (`compression/dynamic_huffman.rs`)

`mk` abstracts `convert_hashmap_to_weights` (a fresh codebook from the
current weight table); `adjust` abstracts `adjust_haspmap` applied with
the Gaussian kernel for the given mean index (the floating-point update
itself is opaque; the claims depend only on both sides applying the same
update).  Both functions also return the sequence of (white, black)
weight-table states observed after each symbol. -/

namespace DynamicHuffman

/-- `compress_moves_custom`: per-color tables start at the baseline; each
move is ranked, encoded with a fresh book from the current color's table,
played; then that color's table gets the Gaussian bump at the used index
and the color flips. -/
def compress_moves_custom (env : ChessAdapter) (mk : Table → CGN.Huffman)
    (adjust : Table → Nat → Table) :
    Nat → Bool → Table → Table → List Nat → Res (List Bool × List (Table × Table))
  | _, _, _, _, [] => .ok ([], [])
  | pos, isWhite, wh, bl, s :: rest =>
    match env.sanToMove pos s with
    | none => .error (.err "san to_move failed: illegal move in input")
    | some m =>
      match get_move_index env pos m with
      | none => .error (.err "compress_moves() - Invalid move for position")
      | some i =>
        if 256 ≤ i then .error (.err "out of range integral type conversion attempted")
        else
          let hc := mk (if isWhite then wh else bl)
          let pos2 := env.play pos m
          let wh2 := if isWhite then adjust wh i else wh
          let bl2 := if isWhite then bl else adjust bl i
          match compress_moves_custom env mk adjust pos2 (!isWhite) wh2 bl2 rest with
          | .error e => .error e
          | .ok (bs, tr) => .ok (hc.enc i ++ bs, (wh2, bl2) :: tr)

/-- `decompress_moves_custom`: decode one symbol with a fresh book from
the current color's table, select and play the move, bump that color's
table, flip the color; stop if re-encoding the symbol reproduces the whole
remaining buffer or the position is checkmate or stalemate, otherwise
slice off the codeword and continue.  The second component is the list of
(white, black) table states observed after each symbol. -/
def decompress_moves_custom (env : ChessAdapter) (mk : Table → CGN.Huffman)
    (adjust : Table → Nat → Table) (wh bl : Table) (pos : Nat) (isWhite : Bool)
    (bits : List Bool) : Res (List Nat) × List (Table × Table) :=
  match (mk (if isWhite then wh else bl)).decOne bits with
  | none => (.error (.err "decompress_moves_custom() - Failed to decode next move from tree"), [])
  | some i =>
    match (generate_moves env pos)[i]? with
    | none => (.error (.err "decompress_moves_custom() - Failed to decode index into a move"), [])
    | some m =>
      if (mk (if isWhite then wh else bl)).enc i = bits ∨
          env.isCheckmate (env.play pos m) ∨ env.isStalemate (env.play pos m) then
        (.ok [env.sanFromMove pos m],
          [(if isWhite then adjust wh i else wh, if isWhite then bl else adjust bl i)])
      else if bits.length < ((mk (if isWhite then wh else bl)).enc i).length then
        (.error (.err "get_bitvec_slice() - Invalid indices found"),
          [(if isWhite then adjust wh i else wh, if isWhite then bl else adjust bl i)])
      else
        match decompress_moves_custom env mk adjust
            (if isWhite then adjust wh i else wh) (if isWhite then bl else adjust bl i)
            (env.play pos m) (!isWhite)
            (bits.drop ((mk (if isWhite then wh else bl)).enc i).length) with
        | (r, tr) =>
          (r.map (fun sans => env.sanFromMove pos m :: sans),
            (if isWhite then adjust wh i else wh, if isWhite then bl else adjust bl i) :: tr)
  termination_by bits.length
  decreasing_by
    have h1 : 0 < ((mk (if isWhite then wh else bl)).enc i).length :=
      List.length_pos.2 ((mk (if isWhite then wh else bl)).enc_ne i)
    simp only [List.length_drop, dite_eq_ite] at *
    omega

/-- `compress_pgn_data_custom`: headers, dynamic move body, framing. -/
def compress_pgn_data_custom (env : ChessAdapter) (mk : Table → CGN.Huffman)
    (adjust : Table → Nat → Table) (serH : PgnHeaders → List Nat) (g : PgnData) :
    Res (List Bool) :=
  let headers := compress_headers serH g
  match compress_moves_custom env mk adjust env.init true baseline_weights baseline_weights g.moves with
  | .error e => .error e
  | .ok (moves, _) =>
    if headers = [] then
      .ok (true :: (headers ++ moves))
    else
      let L := (bitsToBytes headers).length
      if 127 < L then .error (.err "out of range integral type conversion attempted")
      else .ok (i8_to_bit_vec (Int.ofNat L) ++ (headers ++ moves))

/-- `decompress_pgn_data_custom`: undo the framing, then run the dynamic
move decoder on the move body. -/
def decompress_pgn_data_custom (env : ChessAdapter) (mk : Table → CGN.Huffman)
    (adjust : Table → Nat → Table) (deserH : List Nat → Option PgnHeaders)
    (bv : List Bool) : Res PgnData :=
  match decompress_headers deserH bv with
  | .error e => .error e
  | .ok (h, headerBitsLen) =>
    if headerBitsLen = 0 then
      match get_bitvec_slice bv 1 bv.length with
      | .error e => .error e
      | .ok moveBits =>
        match (decompress_moves_custom env mk adjust baseline_weights baseline_weights env.init true moveBits).1 with
        | .error e => .error e
        | .ok sans => .ok ⟨h, sans⟩
    else
      match get_bitvec_slice bv headerBitsLen bv.length with
      | .error e => .error e
      | .ok moveBits =>
        match (decompress_moves_custom env mk adjust baseline_weights baseline_weights env.init true moveBits).1 with
        | .error e => .error e
        | .ok sans => .ok ⟨h, sans⟩

end DynamicHuffman

/-! ## Generic fallback codec (`compression/bincode_zlib.rs`)

`serG`/`deserG` abstract bincode serialization wrapped in zlib at best
compression. -/

namespace BincodeZlib

/-- `compress_pgn_data`: serialize and deflate the whole game, then view
the bytes as bits. -/
def compress_pgn_data (serG : PgnData → List Nat) (g : PgnData) : Res (List Bool) :=
  .ok (bytesToBits (serG g))

/-- `decompress_pgn_data`: view the bits as bytes, inflate and
deserialize. -/
def decompress_pgn_data (deserG : List Nat → Option PgnData) (bv : List Bool) :
    Res PgnData :=
  match deserG (bitsToBytes bv) with
  | some g => .ok g
  | none => .error (.err "failed to deserialize pgn data")

end BincodeZlib

/-! ## WASM string layer (the `export_to_wasm` macro in
`compression/utils/mod.rs`)

`parse` abstracts `PgnData::from_str` (the external pgn_reader plus the
repository's visitor); `render` abstracts `PgnData::to_string`. -/

/-- `<module>_compress_pgn_str`: parse failure or an empty parsed game
yields an empty byte vector, as does a compression error. -/
def compress_pgn_str (parse : String → Option PgnData)
    (cf : PgnData → Res (List Bool)) (s : String) : List Nat :=
  match parse s with
  | none => []
  | some g =>
    if g.is_empty then []
    else
      match cf g with
      | .ok bv => bitsToBytes bv
      | .error _ => []

/-- `<module>_decompress_pgn_str`: a decompression error value yields the
empty string; a panic propagates. -/
def decompress_pgn_str (render : PgnData → String)
    (df : List Bool → Res PgnData) (bytes : List Nat) : Res String :=
  match df (bytesToBits bytes) with
  | .ok g => .ok (render g)
  | .error (.err _) => .ok ""
  | .error (.crash m) => .error (.crash m)

/-! ## Concrete witness instantiations

A tiny concrete chess adapter and a unary prefix code, used only to
instantiate the interface hypotheses of the theorems at concrete inputs. -/

/-- Decoder of the unary prefix code `i ↦ true^i ++ [false]`. -/
def unaryDec : List Bool → Option Nat
  | [] => none
  | false :: _ => some 0
  | true :: rest => (unaryDec rest).map (· + 1)

/-- A concrete `Huffman` interface value: the unary prefix code. -/
def toyHuffman : Huffman where
  enc i := List.replicate i true ++ [false]
  decOne := unaryDec
  enc_ne i := by simp
  dec_nil := rfl

/-- A concrete chess adapter: positions are ply counters; from each of the
first two positions the legal moves are the codes 5 and 3 (in generator
order), SAN codes equal move codes, the score of a move is its code, and
no position is terminal. -/
def toyEnv : ChessAdapter where
  init := 0
  legalMoves p := if p < 2 then [5, 3] else []
  score _ m := Int.ofNat m
  play p _ := p + 1
  sanToMove p s := if p < 2 ∧ (s = 3 ∨ s = 5) then some s else none
  sanFromMove _ m := m
  isCheckmate _ := false
  isStalemate _ := false

/-- A concrete header serializer: every header tuple becomes the single
byte 42. -/
def toySerH : PgnHeaders → List Nat := fun _ => [42]

/-- The matching concrete header deserializer. -/
def toyDeserH : List Nat → Option PgnHeaders :=
  fun bs => if bs = [42] then some PgnHeaders.new else none

/-- A concrete two-move game with empty headers for the witnesses. -/
def toyGame : PgnData :=
  ⟨PgnHeaders.new, [3, 5]⟩

/-- The same game with a non-empty Event header. -/
def toyGameH : PgnData :=
  ⟨⟨"E", "", "", "", "", "", ""⟩, [3, 5]⟩

/-- The empty game: empty headers, no moves. -/
def emptyGame : PgnData :=
  ⟨PgnHeaders.new, []⟩

/-- A concrete game serializer for the fallback codec: the toy game maps
to the single byte 7. -/
def toySerG : PgnData → List Nat := fun _ => [7]

/-- The matching concrete game deserializer. -/
def toyDeserG : List Nat → Option PgnData :=
  fun bs => if bs = [7] then some toyGame else none

/-- A concrete adapter with 300 legal moves from every position, used to
exercise the rank-index overflow path. -/
def bigEnv : ChessAdapter where
  init := 0
  legalMoves _ := List.range 300
  score _ m := Int.ofNat m
  play p _ := p + 1
  sanToMove p s := if s < 300 then some s else none
  sanFromMove _ m := m
  isCheckmate _ := false
  isStalemate _ := false

/-- A concrete header serializer producing a 128-byte block, used to
exercise the header-length overflow path. -/
def bigSerH : PgnHeaders → List Nat := fun _ => List.replicate 128 0


/-! # Theorems -/

/-! ## Bit and byte lemmas -/

theorem byteToBits_length (b : Nat) : (byteToBits b).length = 8 := by
  simp [byteToBits]

theorem bytesToBits_length (bs : List Nat) : (bytesToBits bs).length = 8 * bs.length := by
  induction bs with
  | nil => simp [bytesToBits]
  | cons b bs ih =>
      simp only [bytesToBits, List.flatMap_cons, List.length_append, byteToBits_length]
      simp only [bytesToBits] at ih
      rw [ih]; simp [List.length_cons]; ring

theorem byteFromBits_byteToBits : ∀ b < 256, byteFromBits (byteToBits b) = b := by decide

theorem bytesToBits_cons (b : Nat) (bs : List Nat) :
    bytesToBits (b :: bs) = byteToBits b ++ bytesToBits bs := by
  simp [bytesToBits]

theorem bitsToBytes_bytesToBits (bs : List Nat) (hb : ∀ b ∈ bs, b < 256) :
    bitsToBytes (bytesToBits bs) = bs := by
  induction bs with
  | nil => simp [bytesToBits, bitsToBytes]
  | cons b bs ih =>
      rw [bytesToBits_cons, bitsToBytes]
      have hne : byteToBits b ++ bytesToBits bs ≠ [] := by
        intro h
        have := congrArg List.length h
        simp [byteToBits_length] at this
      rw [if_neg hne]
      have htake : (byteToBits b ++ bytesToBits bs).take 8 = byteToBits b := by
        have : (8 : Nat) = (byteToBits b).length := (byteToBits_length b).symm
        rw [this, List.take_left]
      have hdrop : (byteToBits b ++ bytesToBits bs).drop 8 = bytesToBits bs := by
        have : (8 : Nat) = (byteToBits b).length := (byteToBits_length b).symm
        rw [this, List.drop_left]
      rw [htake, hdrop, byteFromBits_byteToBits b (hb b (by simp)),
        ih (fun x hx => hb x (by simp [hx]))]

theorem i8_to_bit_vec_eq_byteToBits : ∀ L < 128, i8_to_bit_vec (Int.ofNat L) = byteToBits L := by
  decide

theorem readHeaderLen_byte : ∀ L < 256,
    ((byteToBits L).enum).foldl
      (fun byte p => if p.2 then byte ||| Nat.shiftLeft 1 (7 - p.1) else byte) 0 = L := by
  decide

theorem readHeaderLen_append (L : Nat) (hL : L < 256) (rest : List Bool) :
    readHeaderLen (byteToBits L ++ rest) = L := by
  unfold readHeaderLen
  have htake : (byteToBits L ++ rest).take 8 = byteToBits L := by
    have h8 : (8 : Nat) = (byteToBits L).length := (byteToBits_length L).symm
    rw [h8, List.take_left]
  rw [htake]
  exact readHeaderLen_byte L hL

theorem i8_to_bit_vec_length (i : Int) : (i8_to_bit_vec i).length = 8 := by
  simp [i8_to_bit_vec]

theorem i8_to_bit_vec_head : ∀ L < 128, (i8_to_bit_vec (Int.ofNat L)).head? = some false := by
  decide

/-! ## C8: the baseline weight table -/

/-- C8: the baseline weight table returned by `get_lichess_hashmap` has
exactly 256 entries, one for every symbol index 0 through 255 (in
insertion order); the entry for index 0 has weight 225,883,932; and every
entry with index at least 117 has weight 0. -/
theorem c8_lichess_hashmap_shape :
    get_lichess_hashmap.length = 256 ∧
    get_lichess_hashmap.map Prod.fst = List.range 256 ∧
    get_lichess_hashmap.head? = some (0, 225883932) ∧
    (get_lichess_hashmap.all (fun p => decide (117 ≤ p.1 → p.2 = 0)) = true) := by
  refine ⟨by decide, by decide, by decide, by decide⟩

/-! ## C2: the move-ranking key -/

theorem digit_lt {M a b r s : Int} (hr0 : 0 ≤ r) (hrM : r < M) (hs0 : 0 ≤ s) (hsM : s < M) :
    a * M + r < b * M + s ↔ a < b ∨ (a = b ∧ r < s) := by
  have hM : 0 < M := lt_of_le_of_lt hr0 hrM
  constructor
  · intro h
    rcases lt_trichotomy a b with hab | hab | hab
    · exact Or.inl hab
    · refine Or.inr ⟨hab, ?_⟩
      rw [hab] at h
      linarith
    · exfalso
      have h2 : (b + 1) * M ≤ a * M :=
        mul_le_mul_of_nonneg_right (by omega) (le_of_lt hM)
      nlinarith
  · intro h
    rcases h with hab | ⟨hab, hrs⟩
    · have h2 : (a + 1) * M ≤ b * M :=
        mul_le_mul_of_nonneg_right (by omega) (le_of_lt hM)
      nlinarith
    · rw [hab]; linarith

theorem pst_entry_bound : ∀ ri < 6, ∀ s < 64,
    -50 ≤ (LICHESS_TABLES.getD ri []).getD s 0 ∧
      (LICHESS_TABLES.getD ri []).getD s 0 ≤ 50 := by
  decide

theorem xor56_lt : ∀ sq < 64, sq ^^^ 56 < 64 := by decide

theorem roleIndex_lt (r : Role) : roleIndex r < 6 := by
  cases r <;> simp [roleIndex]

theorem pst_score_bound (w : Bool) (r : Role) (sq : Nat) (h : sq < 64) :
    -50 ≤ pst_score w r sq ∧ pst_score w r sq ≤ 50 := by
  unfold pst_score
  rcases w with _ | _
  · simpa using pst_entry_bound (roleIndex r) (roleIndex_lt r) sq h
  · simpa using pst_entry_bound (roleIndex r) (roleIndex_lt r) (sq ^^^ 56) (xor56_lt sq h)

theorem move_pst_score_bound (t : Bool) (m : MoveView)
    (h1 : m.mfrom < 64) (h2 : m.mto < 64) :
    412 ≤ move_pst_score t m ∧ move_pst_score t m ≤ 612 := by
  have hto := pst_score_bound t m.role m.mto h2
  have hfrom := pst_score_bound t m.role m.mfrom h1
  unfold move_pst_score
  constructor <;> linarith [hto.1, hto.2, hfrom.1, hfrom.2]

theorem roleValue_bound (r : Role) : 1 ≤ roleValue r ∧ roleValue r ≤ 6 := by
  cases r <;> simp [roleValue]

theorem pawn_defense_score_bound (pos : PosView) (m : MoveView) :
    0 ≤ pawn_defense_score pos m ∧ pawn_defense_score pos m ≤ 6 := by
  unfold pawn_defense_score
  have := roleValue_bound m.role
  split <;> constructor <;> linarith [this.1, this.2]

theorem move_score_decomp (pos : PosView) (m : MoveView) :
    move_score pos m =
      msbField pos m * 2 ^ 24 +
        (move_pst_score pos.whiteTurn m * 2 ^ 12 +
          ((m.mto : Int) * 2 ^ 6 + (m.mfrom : Int))) := by
  unfold move_score msbField
  ring

/-- C2 (amended): the packed rank key compares as the lexicographic order
of the 4-field tuple (4·promotion + 2·capture + pawn-defense,
piece-square-table delta, destination, source) — the top three spec fields
overlap in the packed integer and only their weighted sum is compared —
and the legal-move list used by the codecs is sorted ascending by the
scoring key. -/
theorem c2_move_score_lex_amended (pos : PosView) (a b : MoveView)
    (ha1 : a.mfrom < 64) (ha2 : a.mto < 64) (hb1 : b.mfrom < 64) (hb2 : b.mto < 64) :
    (move_score pos a < move_score pos b ↔ lexLt4 pos a b) ∧
    (∀ (env : ChessAdapter) (p : Nat),
      List.Sorted (fun x y => env.score p x ≤ env.score p y) (generate_moves env p)) := by
  constructor
  · have hr2a0 : (0 : Int) ≤ (a.mto : Int) * 2 ^ 6 + (a.mfrom : Int) := by positivity
    have hr2b0 : (0 : Int) ≤ (b.mto : Int) * 2 ^ 6 + (b.mfrom : Int) := by positivity
    have hta : ((a.mto : Int)) < 64 := by exact_mod_cast ha2
    have hfa : ((a.mfrom : Int)) < 64 := by exact_mod_cast ha1
    have htb : ((b.mto : Int)) < 64 := by exact_mod_cast hb2
    have hfb : ((b.mfrom : Int)) < 64 := by exact_mod_cast hb1
    have hr2aM : (a.mto : Int) * 2 ^ 6 + (a.mfrom : Int) < 2 ^ 12 := by
      have h0 : (0 : Int) ≤ (a.mto : Int) := by positivity
      nlinarith
    have hr2bM : (b.mto : Int) * 2 ^ 6 + (b.mfrom : Int) < 2 ^ 12 := by
      have h0 : (0 : Int) ≤ (b.mto : Int) := by positivity
      nlinarith
    have hmva := move_pst_score_bound pos.whiteTurn a ha1 ha2
    have hmvb := move_pst_score_bound pos.whiteTurn b hb1 hb2
    have hr1a0 : (0 : Int) ≤ move_pst_score pos.whiteTurn a * 2 ^ 12 +
        ((a.mto : Int) * 2 ^ 6 + (a.mfrom : Int)) := by nlinarith [hmva.1]
    have hr1b0 : (0 : Int) ≤ move_pst_score pos.whiteTurn b * 2 ^ 12 +
        ((b.mto : Int) * 2 ^ 6 + (b.mfrom : Int)) := by nlinarith [hmvb.1]
    have hr1aM : move_pst_score pos.whiteTurn a * 2 ^ 12 +
        ((a.mto : Int) * 2 ^ 6 + (a.mfrom : Int)) < 2 ^ 24 := by nlinarith [hmva.2]
    have hr1bM : move_pst_score pos.whiteTurn b * 2 ^ 12 +
        ((b.mto : Int) * 2 ^ 6 + (b.mfrom : Int)) < 2 ^ 24 := by nlinarith [hmvb.2]
    rw [move_score_decomp pos a, move_score_decomp pos b]
    rw [digit_lt hr1a0 hr1aM hr1b0 hr1bM]
    rw [digit_lt hr2a0 hr2aM hr2b0 hr2bM]
    rw [digit_lt (by positivity : (0:Int) ≤ (a.mfrom : Int))
      (by exact hfa) (by positivity : (0:Int) ≤ (b.mfrom : Int)) (by exact hfb)]
    unfold lexLt4
    exact Iff.rfl
  · intro env p
    haveI : IsTotal Nat (fun x y => env.score p x ≤ env.score p y) :=
      ⟨fun x y => le_total _ _⟩
    haveI : IsTrans Nat (fun x y => env.score p x ≤ env.score p y) :=
      ⟨fun x y z h1 h2 => le_trans h1 h2⟩
    exact List.sorted_insertionSort _ _

/-- C2 counterexample: in the legal position with FEN
`4k3/8/8/1p6/p7/8/8/R3K3 w - - 0 1`, the legal moves Ra1xa4 (a rook
capture onto a pawn-defended square) and Ke1-d1 (a quiet king move)
compare as Ke1-d1 < Ra1xa4 in the spec lexicographic 6-tuple order
(capture is the most significant differing field), but the packed rank
keys compare the other way around: the claimed agreement between the
packed key and the 6-field lexicographic order is false. -/
theorem c2_counterexample :
    lexLt6 cexPos cexKingMove cexRookCapture ∧
    move_score cexPos cexRookCapture < move_score cexPos cexKingMove := by
  constructor
  · decide
  · decide

/-- Witness for the amended C2 theorem at the concrete counterexample
inputs. -/
theorem c2_move_score_lex_amended_witness :
    (move_score cexPos cexKingMove < move_score cexPos cexRookCapture ↔
      lexLt4 cexPos cexKingMove cexRookCapture) ∧
    (∀ (env : ChessAdapter) (p : Nat),
      List.Sorted (fun x y => env.score p x ≤ env.score p y) (generate_moves env p)) :=
  c2_move_score_lex_amended cexPos cexKingMove cexRookCapture
    (by decide) (by decide) (by decide) (by decide)

/-! ## Framing helpers -/

theorem compress_headers_of_empty (serH : PgnHeaders → List Nat) (g : PgnData)
    (h : g.headers.is_empty = true) : compress_headers serH g = [] := by
  simp [compress_headers, h]

theorem compress_headers_of_nonempty (serH : PgnHeaders → List Nat) (g : PgnData)
    (h : g.headers.is_empty = false) :
    compress_headers serH g = bytesToBits (serH g.headers) := by
  simp [compress_headers, h]

theorem bytesToBits_ne_nil (bs : List Nat) (h : bs ≠ []) : bytesToBits bs ≠ [] := by
  intro hc
  have := congrArg List.length hc
  rw [bytesToBits_length] at this
  simp at this
  exact h this

/-! ## C5: the framing bit layout -/

/-- C5: if all seven header strings are empty, bit 0 of the compressed
output is 1 and the move body starts at bit 1; if any header string is
non-empty (and the compressed header block has 1..127 bytes, as the
encoder requires), bit 0 is 0, bits 0..8 encode the byte length `L` of the
zlib block as an 8-bit integer, and exactly `8*L` header bits follow
before the move body. -/
theorem c5_framing_layout (env : ChessAdapter) (hc : Huffman)
    (serH : PgnHeaders → List Nat) (g : PgnData) (mb : List Bool)
    (hmoves : Huffman.compress_moves env hc env.init g.moves = .ok mb) :
    (g.headers.is_empty = true →
      Huffman.compress_pgn_data env hc serH g = .ok (true :: mb)) ∧
    (g.headers.is_empty = false →
      serH g.headers ≠ [] → (∀ b ∈ serH g.headers, b < 256) →
      (serH g.headers).length ≤ 127 →
      Huffman.compress_pgn_data env hc serH g =
        .ok (i8_to_bit_vec (Int.ofNat (serH g.headers).length) ++
          (bytesToBits (serH g.headers) ++ mb)) ∧
      (i8_to_bit_vec (Int.ofNat (serH g.headers).length) ++
          (bytesToBits (serH g.headers) ++ mb)).head? = some false ∧
      readHeaderLen (i8_to_bit_vec (Int.ofNat (serH g.headers).length) ++
          (bytesToBits (serH g.headers) ++ mb)) = (serH g.headers).length ∧
      (bytesToBits (serH g.headers)).length = 8 * (serH g.headers).length) := by
  constructor
  · intro hemp
    unfold Huffman.compress_pgn_data
    rw [compress_headers_of_empty serH g hemp, hmoves]
    simp
  · intro hne hnil hb hlen
    have hh := compress_headers_of_nonempty serH g hne
    have hrt := bitsToBytes_bytesToBits (serH g.headers) hb
    have hne2 : bytesToBits (serH g.headers) ≠ [] := bytesToBits_ne_nil _ hnil
    have hL128 : (serH g.headers).length < 128 := by omega
    have heq : Huffman.compress_pgn_data env hc serH g =
        .ok (i8_to_bit_vec (Int.ofNat (serH g.headers).length) ++
          (bytesToBits (serH g.headers) ++ mb)) := by
      unfold Huffman.compress_pgn_data
      rw [hh, hmoves]
      dsimp only
      rw [if_neg hne2, hrt]
      rw [if_neg (by omega : ¬ 127 < (serH g.headers).length)]
    refine ⟨heq, ?_, ?_, bytesToBits_length _⟩
    · rw [i8_to_bit_vec_eq_byteToBits _ hL128]
      cases hbt : byteToBits (serH g.headers).length with
      | nil =>
          have := congrArg List.length hbt
          simp [byteToBits_length] at this
      | cons x xs =>
          have hx : x = false := by
            have := i8_to_bit_vec_head (serH g.headers).length hL128
            rw [i8_to_bit_vec_eq_byteToBits _ hL128, hbt] at this
            simpa using this
          simp [hbt, hx]
    · rw [i8_to_bit_vec_eq_byteToBits _ hL128]
      exact readHeaderLen_append _ (by omega) _

/-! ## C7: the header-length bound -/

/-- C7: with a non-empty header block, compression fails (for both the
static and the dynamic codec) when the zlib block is longer than 127 bytes
because the byte length must fit a signed 8-bit integer; for blocks of
1..127 bytes the 8-bit length prefix is emitted and framing succeeds. -/
theorem c7_header_length_bound (env : ChessAdapter) (hc : Huffman)
    (mk : Table → Huffman) (adjust : Table → Nat → Table)
    (serH : PgnHeaders → List Nat) (g : PgnData)
    (mb : List Bool) (mbd : List Bool) (tr : List (Table × Table))
    (hne : g.headers.is_empty = false) (hb : ∀ b ∈ serH g.headers, b < 256)
    (hmoves : Huffman.compress_moves env hc env.init g.moves = .ok mb)
    (hdmoves : DynamicHuffman.compress_moves_custom env mk adjust env.init true
      baseline_weights baseline_weights g.moves = .ok (mbd, tr)) :
    (127 < (serH g.headers).length →
      Huffman.compress_pgn_data env hc serH g =
        .error (.err "out of range integral type conversion attempted") ∧
      DynamicHuffman.compress_pgn_data_custom env mk adjust serH g =
        .error (.err "out of range integral type conversion attempted")) ∧
    (1 ≤ (serH g.headers).length → (serH g.headers).length ≤ 127 →
      Huffman.compress_pgn_data env hc serH g =
        .ok (i8_to_bit_vec (Int.ofNat (serH g.headers).length) ++
          (bytesToBits (serH g.headers) ++ mb)) ∧
      DynamicHuffman.compress_pgn_data_custom env mk adjust serH g =
        .ok (i8_to_bit_vec (Int.ofNat (serH g.headers).length) ++
          (bytesToBits (serH g.headers) ++ mbd))) := by
  have hh := compress_headers_of_nonempty serH g hne
  have hrt := bitsToBytes_bytesToBits (serH g.headers) hb
  constructor
  · intro hbig
    have hne2 : bytesToBits (serH g.headers) ≠ [] := by
      apply bytesToBits_ne_nil
      intro hx
      rw [hx] at hbig
      simp at hbig
    constructor
    · unfold Huffman.compress_pgn_data
      rw [hh, hmoves]
      dsimp only
      rw [if_neg hne2, hrt]
      rw [if_pos hbig]
    · unfold DynamicHuffman.compress_pgn_data_custom
      rw [hh, hdmoves]
      dsimp only
      rw [if_neg hne2, hrt]
      rw [if_pos hbig]
  · intro h1 h127
    have hnil : serH g.headers ≠ [] := by
      intro hx
      rw [hx] at h1
      simp at h1
    have hne2 : bytesToBits (serH g.headers) ≠ [] := bytesToBits_ne_nil _ hnil
    constructor
    · unfold Huffman.compress_pgn_data
      rw [hh, hmoves]
      dsimp only
      rw [if_neg hne2, hrt]
      rw [if_neg (by omega : ¬ 127 < (serH g.headers).length)]
    · unfold DynamicHuffman.compress_pgn_data_custom
      rw [hh, hdmoves]
      dsimp only
      rw [if_neg hne2, hrt]
      rw [if_neg (by omega : ¬ 127 < (serH g.headers).length)]

/-! ## C6: static codec error paths -/

/-- C6: the static Huffman encoder fails with an error value when a SAN is
not a legal move in its position and when a rank index exceeds 255; the
decoder fails with an error value when a decoded index has no entry in the
legal-move list (index at least the list length); none of these panic. -/
theorem c6_static_error_paths (env : ChessAdapter) (hc : Huffman) :
    (∀ pos s rest, env.sanToMove pos s = none →
      Huffman.compress_moves env hc pos (s :: rest) =
        .error (.err "san to_move failed: illegal move in input")) ∧
    (∀ pos s rest m i, env.sanToMove pos s = some m →
      get_move_index env pos m = some i → 256 ≤ i →
      Huffman.compress_moves env hc pos (s :: rest) =
        .error (.err "out of range integral type conversion attempted")) ∧
    (∀ pos bits i, hc.decOne bits = some i →
      (generate_moves env pos).length ≤ i →
      Huffman.decompress_moves env hc pos bits =
        .error (.err "Failed to decode move")) := by
  refine ⟨?_, ?_, ?_⟩
  · intro pos s rest h
    simp [Huffman.compress_moves, h]
  · intro pos s rest m i h1 h2 h3
    simp [Huffman.compress_moves, h1, h2, h3]
  · intro pos bits i h1 h2
    have hnone : (generate_moves env pos)[i]? = none := List.getElem?_eq_none h2
    rw [Huffman.decompress_moves]
    split
    · simp_all
    · rename_i i' heq
      rw [h1] at heq
      cases heq
      simp [hnone]

/-! ## C3: dynamic decoder termination and consumption -/

/-- C3: after decoding a symbol and playing its move, the dynamic decoder
stops exactly when re-encoding the just-decoded index reproduces the
entire remaining bit buffer or the resulting position is checkmate or
stalemate; otherwise it slices exactly the just-produced codeword length
off the front of the buffer and decodes the next symbol with the updated
state. -/
theorem c3_dynamic_decoder_step (env : ChessAdapter) (mk : Table → Huffman)
    (adjust : Table → Nat → Table) (wh bl : Table) (pos : Nat) (isWhite : Bool)
    (bits : List Bool) (i m : Nat)
    (hdec : (mk (if isWhite then wh else bl)).decOne bits = some i)
    (hget : (generate_moves env pos)[i]? = some m) :
    (((mk (if isWhite then wh else bl)).enc i = bits ∨
        env.isCheckmate (env.play pos m) = true ∨
        env.isStalemate (env.play pos m) = true) →
      DynamicHuffman.decompress_moves_custom env mk adjust wh bl pos isWhite bits =
        (.ok [env.sanFromMove pos m],
          [(if isWhite then adjust wh i else wh,
            if isWhite then bl else adjust bl i)])) ∧
    (((mk (if isWhite then wh else bl)).enc i ≠ bits ∧
        env.isCheckmate (env.play pos m) = false ∧
        env.isStalemate (env.play pos m) = false) →
      ((mk (if isWhite then wh else bl)).enc i).length ≤ bits.length →
      DynamicHuffman.decompress_moves_custom env mk adjust wh bl pos isWhite bits =
        ((DynamicHuffman.decompress_moves_custom env mk adjust
            (if isWhite then adjust wh i else wh)
            (if isWhite then bl else adjust bl i)
            (env.play pos m) (!isWhite)
            (bits.drop ((mk (if isWhite then wh else bl)).enc i).length)).1.map
              (fun sans => env.sanFromMove pos m :: sans),
          (if isWhite then adjust wh i else wh,
            if isWhite then bl else adjust bl i) ::
            (DynamicHuffman.decompress_moves_custom env mk adjust
              (if isWhite then adjust wh i else wh)
              (if isWhite then bl else adjust bl i)
              (env.play pos m) (!isWhite)
              (bits.drop ((mk (if isWhite then wh else bl)).enc i).length)).2)) := by
  constructor
  · intro hstop
    rw [DynamicHuffman.decompress_moves_custom]
    simp only [hdec, hget]
    rw [if_pos hstop]
  · intro hcont hlen
    have hnot : ¬ ((mk (if isWhite then wh else bl)).enc i = bits ∨
        env.isCheckmate (env.play pos m) = true ∨
        env.isStalemate (env.play pos m) = true) := by
      push_neg
      exact ⟨hcont.1, by simp [hcont.2.1], by simp [hcont.2.2]⟩
    rw [DynamicHuffman.decompress_moves_custom]
    simp only [hdec, hget]
    rw [if_neg hnot, if_neg (not_lt.2 hlen)]

/-! ## Index and framing decode helpers -/

theorem findIdx?_go_getElem (p : Nat → Bool) :
    ∀ (l : List Nat) (start i : Nat), List.findIdx? p l start = some i →
      start ≤ i ∧ ∃ a, l[i - start]? = some a ∧ p a = true := by
  intro l
  induction l with
  | nil => intro start i h; simp [List.findIdx?] at h
  | cons a l ih =>
      intro start i h
      rw [List.findIdx?] at h
      by_cases hp : p a
      · rw [if_pos hp] at h
        injection h with h
        subst h
        exact ⟨le_refl _, a, by simp, hp⟩
      · rw [if_neg hp] at h
        obtain ⟨hle, x, hx, hpx⟩ := ih (start + 1) i h
        refine ⟨by omega, x, ?_, hpx⟩
        have hsub : i - start = (i - (start + 1)) + 1 := by omega
        rw [hsub, List.getElem?_cons_succ]
        exact hx

theorem get_move_index_getElem (env : ChessAdapter) (pos m i : Nat)
    (h : get_move_index env pos m = some i) :
    (generate_moves env pos)[i]? = some m := by
  unfold get_move_index at h
  obtain ⟨_, a, ha, hpa⟩ := findIdx?_go_getElem _ _ 0 i h
  rw [Nat.sub_zero] at ha
  have : a = m := by simpa using hpa
  rw [← this]
  exact ha

theorem get_bitvec_slice_eval (bv : List Bool) (start stop : Nat)
    (h1 : start ≤ stop) (h2 : stop ≤ bv.length) :
    get_bitvec_slice bv start stop = .ok ((bv.drop start).take (stop - start)) := by
  unfold get_bitvec_slice
  rw [if_neg]
  push_neg
  exact ⟨h1, by omega, h2⟩

theorem slice_all_after_one (mb : List Bool) :
    get_bitvec_slice (true :: mb) 1 (true :: mb).length = .ok mb := by
  rw [get_bitvec_slice_eval _ _ _ (by simp) (le_refl _)]
  simp

theorem decompress_headers_nohead (deserH : List Nat → Option PgnHeaders)
    (mb : List Bool) :
    decompress_headers deserH (true :: mb) = .ok (PgnHeaders.new, 0) := rfl

theorem decompress_headers_framed (deserH : List Nat → Option PgnHeaders)
    (h : PgnHeaders) (bs : List Nat) (mb : List Bool)
    (hnil : bs ≠ []) (hb : ∀ b ∈ bs, b < 256) (hlen : bs.length ≤ 127)
    (hrt : deserH bs = some h) :
    decompress_headers deserH
        (i8_to_bit_vec (Int.ofNat bs.length) ++ (bytesToBits bs ++ mb)) =
      .ok (h, (bs.length + 1) * 8) := by
  have hL : bs.length < 128 := by omega
  rw [i8_to_bit_vec_eq_byteToBits _ hL]
  have hread : readHeaderLen (byteToBits bs.length ++ (bytesToBits bs ++ mb)) = bs.length :=
    readHeaderLen_append _ (by omega) _
  have hslice : get_bitvec_slice (byteToBits bs.length ++ (bytesToBits bs ++ mb)) 8
      ((bs.length + 1) * 8) = .ok (bytesToBits bs) := by
    rw [get_bitvec_slice_eval _ _ _ (by omega)
      (by simp [byteToBits_length, bytesToBits_length]; omega)]
    have hdrop : (byteToBits bs.length ++ (bytesToBits bs ++ mb)).drop 8 =
        bytesToBits bs ++ mb := by
      have h8 : (8 : Nat) = (byteToBits bs.length).length := (byteToBits_length _).symm
      rw [h8, List.drop_left]
    rw [hdrop]
    have htk : (bs.length + 1) * 8 - 8 = (bytesToBits bs).length := by
      rw [bytesToBits_length]; ring_nf; omega
    rw [htk, List.take_left]
  cases hbt : byteToBits bs.length with
  | nil =>
      exfalso
      have := congrArg List.length hbt
      simp [byteToBits_length] at this
  | cons b0 t =>
      have hb0 : b0 = false := by
        have hh := i8_to_bit_vec_head bs.length hL
        rw [i8_to_bit_vec_eq_byteToBits _ hL, hbt] at hh
        simpa using hh
      subst hb0
      rw [hbt] at hread hslice
      show decompress_headers deserH (false :: (t ++ (bytesToBits bs ++ mb))) = _
      unfold decompress_headers
      rw [← List.cons_append]
      simp only [Bool.false_eq_true, if_false, hread, hslice,
        bitsToBytes_bytesToBits bs hb, hrt]
      rw [List.cons_append]
      simp

/-! ## Static codec roundtrip -/

theorem static_moves_roundtrip (env : ChessAdapter) (hc : Huffman)
    (hPre : ∀ i rest, hc.decOne (hc.enc i ++ rest) = some i)
    (hSan : ∀ p s m, env.sanToMove p s = some m → env.sanFromMove p m = s) :
    ∀ (moves : List Nat) (pos : Nat) (bs : List Bool),
      Huffman.compress_moves env hc pos moves = .ok bs →
      Huffman.decompress_moves env hc pos bs = .ok moves := by
  intro moves
  induction moves with
  | nil =>
      intro pos bs h
      simp only [Huffman.compress_moves] at h
      injection h with h
      subst h
      rw [Huffman.decompress_moves]
      split
      · rfl
      · rename_i i heq
        rw [hc.dec_nil] at heq
        cases heq
  | cons s rest ih =>
      intro pos bs h
      simp only [Huffman.compress_moves] at h
      cases h1 : env.sanToMove pos s with
      | none => rw [h1] at h; cases h
      | some m =>
        rw [h1] at h
        dsimp only at h
        cases h2 : get_move_index env pos m with
        | none => rw [h2] at h; cases h
        | some i =>
          rw [h2] at h
          dsimp only at h
          by_cases h3 : 256 ≤ i
          · rw [if_pos h3] at h; cases h
          · rw [if_neg h3] at h
            cases h4 : Huffman.compress_moves env hc (env.play pos m) rest with
            | error e => rw [h4] at h; cases h
            | ok bs2 =>
              rw [h4] at h
              dsimp only at h
              injection h with h
              subst h
              rw [Huffman.decompress_moves]
              split
              · rename_i heq
                rw [hPre i bs2] at heq
                cases heq
              · rename_i i2 heq
                rw [hPre i bs2] at heq
                injection heq with heq
                subst heq
                rw [get_move_index_getElem env pos m i h2]
                have hdrop : (hc.enc i ++ bs2).drop (hc.enc i).length = bs2 :=
                  List.drop_left _ _
                rw [hdrop]
                dsimp only
                rw [ih (env.play pos m) bs2 h4]
                dsimp only
                rw [hSan pos s m h1]

/-! ## Dynamic codec roundtrip and lockstep -/

theorem dyn_compress_ne (env : ChessAdapter) (mk : Table → Huffman)
    (adjust : Table → Nat → Table) (pos : Nat) (isWhite : Bool) (wh bl : Table)
    (s : Nat) (rest : List Nat) (bs : List Bool) (tr : List (Table × Table))
    (h : DynamicHuffman.compress_moves_custom env mk adjust pos isWhite wh bl
      (s :: rest) = .ok (bs, tr)) :
    bs ≠ [] := by
  simp only [DynamicHuffman.compress_moves_custom] at h
  cases h1 : env.sanToMove pos s with
  | none => rw [h1] at h; cases h
  | some m =>
    rw [h1] at h
    dsimp only at h
    cases h2 : get_move_index env pos m with
    | none => rw [h2] at h; cases h
    | some i =>
      rw [h2] at h
      dsimp only at h
      by_cases h3 : 256 ≤ i
      · rw [if_pos h3] at h; cases h
      · rw [if_neg h3] at h
        cases h4 : DynamicHuffman.compress_moves_custom env mk adjust (env.play pos m)
            (!isWhite) (if isWhite then adjust wh i else wh)
            (if isWhite then bl else adjust bl i) rest with
        | error e => rw [h4] at h; cases h
        | ok p =>
          obtain ⟨p1, p2⟩ := p
          rw [h4] at h
          dsimp only at h
          injection h with h
          rw [Prod.mk.injEq] at h
          obtain ⟨hbs, _⟩ := h
          intro hn
          rw [hn] at hbs
          exact (mk (if isWhite then wh else bl)).enc_ne i (List.append_eq_nil.1 hbs).1

theorem dyn_moves_roundtrip (env : ChessAdapter) (mk : Table → Huffman)
    (adjust : Table → Nat → Table)
    (hPre : ∀ t i rest, (mk t).decOne ((mk t).enc i ++ rest) = some i)
    (hSan : ∀ p s m, env.sanToMove p s = some m → env.sanFromMove p m = s)
    (hTerm : ∀ p s m, env.sanToMove p s = some m →
      env.isCheckmate p = false ∧ env.isStalemate p = false) :
    ∀ (moves : List Nat) (pos : Nat) (isWhite : Bool) (wh bl : Table)
      (bs : List Bool) (tr : List (Table × Table)),
      moves ≠ [] →
      DynamicHuffman.compress_moves_custom env mk adjust pos isWhite wh bl moves =
        .ok (bs, tr) →
      DynamicHuffman.decompress_moves_custom env mk adjust wh bl pos isWhite bs =
        (.ok moves, tr) := by
  intro moves
  induction moves with
  | nil => intro pos isWhite wh bl bs tr hne _; exact absurd rfl hne
  | cons s rest ih =>
      intro pos isWhite wh bl bs tr _ h
      simp only [DynamicHuffman.compress_moves_custom] at h
      cases h1 : env.sanToMove pos s with
      | none => rw [h1] at h; cases h
      | some m =>
        rw [h1] at h
        dsimp only at h
        cases h2 : get_move_index env pos m with
        | none => rw [h2] at h; cases h
        | some i =>
          rw [h2] at h
          dsimp only at h
          by_cases h3 : 256 ≤ i
          · rw [if_pos h3] at h; cases h
          · rw [if_neg h3] at h
            cases h4 : DynamicHuffman.compress_moves_custom env mk adjust (env.play pos m)
                (!isWhite) (if isWhite then adjust wh i else wh)
                (if isWhite then bl else adjust bl i) rest with
            | error e => rw [h4] at h; cases h
            | ok p =>
              obtain ⟨p1, p2⟩ := p
              rw [h4] at h
              dsimp only at h
              injection h with h
              rw [Prod.mk.injEq] at h
              obtain ⟨hbs, htr⟩ := h
              subst hbs
              subst htr
              rw [DynamicHuffman.decompress_moves_custom]
              rw [hPre (if isWhite then wh else bl) i p1]
              dsimp only
              rw [get_move_index_getElem env pos m i h2]
              dsimp only
              cases rest with
              | nil =>
                  simp only [DynamicHuffman.compress_moves_custom] at h4
                  injection h4 with h4
                  rw [Prod.mk.injEq] at h4
                  obtain ⟨hp1, hp2⟩ := h4
                  subst hp1
                  subst hp2
                  rw [if_pos (Or.inl (by simp))]
                  rw [hSan pos s m h1]
              | cons s2 r2 =>
                  have hp1 : p1 ≠ [] :=
                    dyn_compress_ne env mk adjust (env.play pos m) (!isWhite) _ _ s2 r2 p1 p2 h4
                  have hterm2 : env.isCheckmate (env.play pos m) = false ∧
                      env.isStalemate (env.play pos m) = false := by
                    cases h1x : env.sanToMove (env.play pos m) s2 with
                    | none =>
                        exfalso
                        simp only [DynamicHuffman.compress_moves_custom, h1x] at h4
                        cases h4
                    | some m2 => exact hTerm _ _ _ h1x
                  have hcond : ¬ ((mk (if isWhite then wh else bl)).enc i =
                      (mk (if isWhite then wh else bl)).enc i ++ p1 ∨
                      env.isCheckmate (env.play pos m) = true ∨
                      env.isStalemate (env.play pos m) = true) := by
                    push_neg
                    refine ⟨?_, by simp [hterm2.1], by simp [hterm2.2]⟩
                    intro heq
                    have := congrArg List.length heq
                    simp only [List.length_append] at this
                    have hlp : p1.length = 0 := by omega
                    exact hp1 (List.length_eq_zero.1 hlp)
                  rw [if_neg hcond]
                  have hlen : ¬ ((mk (if isWhite then wh else bl)).enc i ++ p1).length <
                      ((mk (if isWhite then wh else bl)).enc i).length := by
                    simp only [List.length_append]
                    omega
                  rw [if_neg hlen]
                  rw [List.drop_left]
                  rw [ih (env.play pos m) (!isWhite) _ _ p1 p2 (by simp) h4]
                  dsimp only
                  rw [hSan pos s m h1]
                  rfl

/-! ## Full-pipeline roundtrip helpers -/

theorem headers_empty_eq (h : PgnHeaders) (he : h.is_empty = true) :
    h = PgnHeaders.new := by
  cases h
  simp only [PgnHeaders.is_empty, Bool.and_eq_true, decide_eq_true_eq] at he
  obtain ⟨⟨⟨⟨⟨⟨h1, h2⟩, h3⟩, h4⟩, h5⟩, h6⟩, h7⟩ := he
  subst h1; subst h2; subst h3; subst h4; subst h5; subst h6; subst h7
  rfl

theorem slice_move_bits (bs : List Nat) (mb : List Bool) (hL : bs.length < 128) :
    get_bitvec_slice (i8_to_bit_vec (Int.ofNat bs.length) ++ (bytesToBits bs ++ mb))
      ((bs.length + 1) * 8)
      (i8_to_bit_vec (Int.ofNat bs.length) ++ (bytesToBits bs ++ mb)).length =
      .ok mb := by
  have hlen : (i8_to_bit_vec (Int.ofNat bs.length) ++ (bytesToBits bs ++ mb)).length =
      8 + (8 * bs.length + mb.length) := by
    simp [i8_to_bit_vec_length, bytesToBits_length]
  rw [get_bitvec_slice_eval _ _ _ (by omega) (by omega)]
  have hassoc : i8_to_bit_vec (Int.ofNat bs.length) ++ (bytesToBits bs ++ mb) =
      (i8_to_bit_vec (Int.ofNat bs.length) ++ bytesToBits bs) ++ mb := by
    rw [List.append_assoc]
  rw [hassoc]
  have hlft : (i8_to_bit_vec (Int.ofNat bs.length) ++ bytesToBits bs).length =
      (bs.length + 1) * 8 := by
    simp [i8_to_bit_vec_length, bytesToBits_length]
    ring
  rw [← hlft, List.drop_left]
  have htk : ((i8_to_bit_vec (Int.ofNat bs.length) ++ bytesToBits bs) ++ mb).length -
      (i8_to_bit_vec (Int.ofNat bs.length) ++ bytesToBits bs).length = mb.length := by
    simp
    omega
  rw [htk, List.take_length]

theorem static_pgn_roundtrip (env : ChessAdapter) (hc : Huffman)
    (serH : PgnHeaders → List Nat) (deserH : List Nat → Option PgnHeaders)
    (g : PgnData) (out : List Bool)
    (hPre : ∀ i rest, hc.decOne (hc.enc i ++ rest) = some i)
    (hSan : ∀ p s m, env.sanToMove p s = some m → env.sanFromMove p m = s)
    (hser_ne : g.headers.is_empty = false → serH g.headers ≠ [])
    (hb : ∀ b ∈ serH g.headers, b < 256)
    (hrt : deserH (serH g.headers) = some g.headers)
    (hcomp : Huffman.compress_pgn_data env hc serH g = .ok out) :
    Huffman.decompress_pgn_data env hc deserH out = .ok g := by
  unfold Huffman.compress_pgn_data at hcomp
  cases hmv : Huffman.compress_moves env hc env.init g.moves with
  | error e => rw [hmv] at hcomp; cases hcomp
  | ok mb =>
    rw [hmv] at hcomp
    dsimp only at hcomp
    cases hemp : g.headers.is_empty with
    | true =>
        rw [compress_headers_of_empty serH g hemp] at hcomp
        rw [if_pos rfl] at hcomp
        injection hcomp with hcomp
        subst hcomp
        unfold Huffman.decompress_pgn_data
        rw [List.nil_append, decompress_headers_nohead]
        dsimp only
        rw [if_pos rfl, slice_all_after_one]
        dsimp only
        rw [static_moves_roundtrip env hc hPre hSan g.moves env.init mb hmv]
        dsimp only
        have hg : g.headers = PgnHeaders.new := headers_empty_eq g.headers hemp
        rw [← hg]
    | false =>
        rw [compress_headers_of_nonempty serH g hemp] at hcomp
        have hne2 : bytesToBits (serH g.headers) ≠ [] :=
          bytesToBits_ne_nil _ (hser_ne hemp)
        rw [if_neg hne2] at hcomp
        rw [bitsToBytes_bytesToBits _ hb] at hcomp
        by_cases hbig : 127 < (serH g.headers).length
        · rw [if_pos hbig] at hcomp; cases hcomp
        · rw [if_neg hbig] at hcomp
          injection hcomp with hcomp
          subst hcomp
          have hL : (serH g.headers).length < 128 := by omega
          unfold Huffman.decompress_pgn_data
          rw [decompress_headers_framed deserH g.headers (serH g.headers) mb
            (hser_ne hemp) hb (by omega) hrt]
          dsimp only
          rw [if_neg (by positivity)]
          rw [slice_move_bits _ _ hL]
          dsimp only
          rw [static_moves_roundtrip env hc hPre hSan g.moves env.init mb hmv]

theorem dyn_pgn_roundtrip (env : ChessAdapter) (mk : Table → Huffman)
    (adjust : Table → Nat → Table)
    (serH : PgnHeaders → List Nat) (deserH : List Nat → Option PgnHeaders)
    (g : PgnData) (out : List Bool)
    (hPre : ∀ t i rest, (mk t).decOne ((mk t).enc i ++ rest) = some i)
    (hSan : ∀ p s m, env.sanToMove p s = some m → env.sanFromMove p m = s)
    (hTerm : ∀ p s m, env.sanToMove p s = some m →
      env.isCheckmate p = false ∧ env.isStalemate p = false)
    (hser_ne : g.headers.is_empty = false → serH g.headers ≠ [])
    (hb : ∀ b ∈ serH g.headers, b < 256)
    (hrt : deserH (serH g.headers) = some g.headers)
    (hmne : g.moves ≠ [])
    (hcomp : DynamicHuffman.compress_pgn_data_custom env mk adjust serH g = .ok out) :
    DynamicHuffman.decompress_pgn_data_custom env mk adjust deserH out = .ok g := by
  unfold DynamicHuffman.compress_pgn_data_custom at hcomp
  cases hmv : DynamicHuffman.compress_moves_custom env mk adjust env.init true
      baseline_weights baseline_weights g.moves with
  | error e => rw [hmv] at hcomp; cases hcomp
  | ok p =>
    obtain ⟨mb, tr⟩ := p
    rw [hmv] at hcomp
    dsimp only at hcomp
    have hdec : DynamicHuffman.decompress_moves_custom env mk adjust baseline_weights
        baseline_weights env.init true mb = (.ok g.moves, tr) :=
      dyn_moves_roundtrip env mk adjust hPre hSan hTerm g.moves env.init true
        baseline_weights baseline_weights mb tr hmne hmv
    cases hemp : g.headers.is_empty with
    | true =>
        rw [compress_headers_of_empty serH g hemp] at hcomp
        rw [if_pos rfl] at hcomp
        injection hcomp with hcomp
        subst hcomp
        unfold DynamicHuffman.decompress_pgn_data_custom
        rw [List.nil_append, decompress_headers_nohead]
        dsimp only
        rw [if_pos rfl, slice_all_after_one]
        dsimp only
        rw [hdec]
        dsimp only
        have hg : g.headers = PgnHeaders.new := headers_empty_eq g.headers hemp
        rw [← hg]
    | false =>
        rw [compress_headers_of_nonempty serH g hemp] at hcomp
        have hne2 : bytesToBits (serH g.headers) ≠ [] :=
          bytesToBits_ne_nil _ (hser_ne hemp)
        rw [if_neg hne2] at hcomp
        rw [bitsToBytes_bytesToBits _ hb] at hcomp
        by_cases hbig : 127 < (serH g.headers).length
        · rw [if_pos hbig] at hcomp; cases hcomp
        · rw [if_neg hbig] at hcomp
          injection hcomp with hcomp
          subst hcomp
          have hL : (serH g.headers).length < 128 := by omega
          unfold DynamicHuffman.decompress_pgn_data_custom
          rw [decompress_headers_framed deserH g.headers (serH g.headers) mb
            (hser_ne hemp) hb (by omega) hrt]
          dsimp only
          rw [if_neg (by positivity)]
          rw [slice_move_bits _ _ hL]
          dsimp only
          rw [hdec]

theorem bincode_roundtrip (serG : PgnData → List Nat)
    (deserG : List Nat → Option PgnData) (g : PgnData)
    (hb : ∀ b ∈ serG g, b < 256) (hrt : deserG (serG g) = some g) :
    BincodeZlib.decompress_pgn_data deserG (bytesToBits (serG g)) = .ok g := by
  unfold BincodeZlib.decompress_pgn_data
  rw [bitsToBytes_bytesToBits _ hb, hrt]

/-! ## C1: the roundtrip invariant -/

/-- C1 (amended): with the external interfaces behaving as specified
(prefix-code decoding, SAN canonicalization, a legal move implying a
non-terminal position, and the serializers inverting on this game),
decompressing the compression of a game reproduces the game for the
fallback codec and the static Huffman codec for every game, and for the
dynamic Huffman codec for every game with at least one move. -/
theorem c1_roundtrip_amended (env : ChessAdapter) (hc : Huffman)
    (mk : Table → Huffman) (adjust : Table → Nat → Table)
    (serH : PgnHeaders → List Nat) (deserH : List Nat → Option PgnHeaders)
    (serG : PgnData → List Nat) (deserG : List Nat → Option PgnData)
    (g : PgnData)
    (hPreS : ∀ i rest, hc.decOne (hc.enc i ++ rest) = some i)
    (hPreD : ∀ t i rest, (mk t).decOne ((mk t).enc i ++ rest) = some i)
    (hSan : ∀ p s m, env.sanToMove p s = some m → env.sanFromMove p m = s)
    (hTerm : ∀ p s m, env.sanToMove p s = some m →
      env.isCheckmate p = false ∧ env.isStalemate p = false)
    (hser_ne : g.headers.is_empty = false → serH g.headers ≠ [])
    (hbH : ∀ b ∈ serH g.headers, b < 256)
    (hrtH : deserH (serH g.headers) = some g.headers)
    (hbG : ∀ b ∈ serG g, b < 256)
    (hrtG : deserG (serG g) = some g) :
    (∀ out, BincodeZlib.compress_pgn_data serG g = .ok out →
      BincodeZlib.decompress_pgn_data deserG out = .ok g) ∧
    (∀ out, Huffman.compress_pgn_data env hc serH g = .ok out →
      Huffman.decompress_pgn_data env hc deserH out = .ok g) ∧
    (g.moves ≠ [] →
      ∀ out, DynamicHuffman.compress_pgn_data_custom env mk adjust serH g = .ok out →
        DynamicHuffman.decompress_pgn_data_custom env mk adjust deserH out = .ok g) := by
  refine ⟨?_, ?_, ?_⟩
  · intro out hcp
    unfold BincodeZlib.compress_pgn_data at hcp
    injection hcp with hcp
    subst hcp
    exact bincode_roundtrip serG deserG g hbG hrtG
  · intro out hcp
    exact static_pgn_roundtrip env hc serH deserH g out hPreS hSan hser_ne hbH hrtH hcp
  · intro hmne out hcp
    exact dyn_pgn_roundtrip env mk adjust serH deserH g out hPreD hSan hTerm
      hser_ne hbH hrtH hmne hcp

/-- C1 counterexample: the zero-move game with empty headers is accepted
by the dynamic encoder (output: the single no-headers marker bit), but the
dynamic decoder fails on that output instead of returning the game: the
roundtrip claim is false for the dynamic codec on zero-move games. -/
theorem c1_counterexample :
    DynamicHuffman.compress_pgn_data_custom toyEnv (fun _ => toyHuffman) (fun t _ => t)
      toySerH emptyGame = .ok [true] ∧
    DynamicHuffman.decompress_pgn_data_custom toyEnv (fun _ => toyHuffman) (fun t _ => t)
      toyDeserH [true] =
      .error (.err "decompress_moves_custom() - Failed to decode next move from tree") := by
  constructor
  · rfl
  · unfold DynamicHuffman.decompress_pgn_data_custom
    rw [decompress_headers_nohead]
    dsimp only
    rw [if_pos rfl, slice_all_after_one]
    dsimp only
    rw [DynamicHuffman.decompress_moves_custom]
    rfl

/-! ## C4: dynamic encoder/decoder lockstep -/

/-- C4: for every game accepted by the dynamic encoder, the sequence of
per-color weight-table states observed by the decoder of the encoded move
body after each symbol equals the sequence observed by the encoder: both
start from the baseline tables and apply the same update to the same
color's table in the same order. -/
theorem c4_dynamic_lockstep (env : ChessAdapter) (mk : Table → Huffman)
    (adjust : Table → Nat → Table)
    (hPre : ∀ t i rest, (mk t).decOne ((mk t).enc i ++ rest) = some i)
    (hSan : ∀ p s m, env.sanToMove p s = some m → env.sanFromMove p m = s)
    (hTerm : ∀ p s m, env.sanToMove p s = some m →
      env.isCheckmate p = false ∧ env.isStalemate p = false)
    (g : PgnData) (bs : List Bool) (tr : List (Table × Table))
    (hcomp : DynamicHuffman.compress_moves_custom env mk adjust env.init true
      baseline_weights baseline_weights g.moves = .ok (bs, tr)) :
    (DynamicHuffman.decompress_moves_custom env mk adjust baseline_weights
      baseline_weights env.init true bs).2 = tr := by
  cases hm : g.moves with
  | nil =>
      rw [hm] at hcomp
      simp only [DynamicHuffman.compress_moves_custom] at hcomp
      injection hcomp with hcomp
      rw [Prod.mk.injEq] at hcomp
      obtain ⟨hbs, htr⟩ := hcomp
      subst hbs
      subst htr
      rw [DynamicHuffman.decompress_moves_custom]
      rw [(mk (if true = true then baseline_weights else baseline_weights)).dec_nil]
  | cons s rest =>
      rw [hm] at hcomp
      rw [dyn_moves_roundtrip env mk adjust hPre hSan hTerm (s :: rest) env.init true
        baseline_weights baseline_weights bs tr (by simp) hcomp]

/-! ## C9: string-level rejection of invalid inputs -/

/-- C9: compressing the invalid input string "foo bar" through the
string-level API returns an empty byte vector (the parse either fails or
yields the empty game, which the wrapper rejects), and decompressing the
byte vector [0, 1, 2, 3] returns the empty string because the header
block is empty and fails to inflate; neither operation panics. -/
theorem c9_string_level_rejection (parse : String → Option PgnData)
    (render : PgnData → String) (env : ChessAdapter) (hc : Huffman)
    (serH : PgnHeaders → List Nat) (deserH : List Nat → Option PgnHeaders)
    (hparse : parse "foo bar" = none ∨
      ∃ g, parse "foo bar" = some g ∧ g.is_empty = true)
    (hdeser : deserH [] = none) :
    compress_pgn_str parse (Huffman.compress_pgn_data env hc serH) "foo bar" = [] ∧
    decompress_pgn_str render (Huffman.decompress_pgn_data env hc deserH)
      [0, 1, 2, 3] = .ok "" := by
  constructor
  · unfold compress_pgn_str
    rcases hparse with hp | ⟨g, hp, he⟩
    · rw [hp]
    · rw [hp]
      dsimp only
      rw [if_pos he]
  · have hb : bitsToBytes ([] : List Bool) = [] := by rw [bitsToBytes]; simp
    have hh : decompress_headers deserH (bytesToBits [0, 1, 2, 3]) =
        match deserH (bitsToBytes ([] : List Bool)) with
        | none => .error (.err "failed to deserialize headers")
        | some h => .ok (h, 8) := rfl
    rw [hb, hdeser] at hh
    unfold decompress_pgn_str Huffman.decompress_pgn_data
    rw [hh]

/-! ## C10: behavior on the empty input bit vector -/

theorem get_bitvec_slice_cases (bv : List Bool) (start stop : Nat) :
    get_bitvec_slice bv start stop =
      .error (.err "get_bitvec_slice() - Invalid indices found") ∨
    ∃ l, get_bitvec_slice bv start stop = .ok l := by
  unfold get_bitvec_slice
  split
  · exact Or.inl rfl
  · exact Or.inr ⟨_, rfl⟩

/-- C10 (amended): the static and dynamic Huffman `decompress_pgn_data`
entry points read bit 0 of the input unconditionally before any length
check, so on the empty bit vector they panic with an out-of-bounds index
instead of returning an error value, and for every input of length at
least 1 the first read succeeds (a panic arises at no other point of
`decompress_headers`).  The fallback `bincode_zlib::decompress_pgn_data`
entry point, by contrast, never reads bit 0 (see the counterexample). -/
theorem c10_empty_input_crash (env : ChessAdapter) (hc : Huffman)
    (mk : Table → Huffman) (adjust : Table → Nat → Table)
    (deserH : List Nat → Option PgnHeaders) :
    Huffman.decompress_pgn_data env hc deserH [] =
      .error (.crash "index out of bounds: bit_vec[0] on empty bit vector") ∧
    DynamicHuffman.decompress_pgn_data_custom env mk adjust deserH [] =
      .error (.crash "index out of bounds: bit_vec[0] on empty bit vector") ∧
    (∀ bv : List Bool, bv ≠ [] → isCrash (decompress_headers deserH bv) = false) := by
  refine ⟨rfl, rfl, ?_⟩
  intro bv hne
  cases bv with
  | nil => exact absurd rfl hne
  | cons b rest =>
      unfold decompress_headers
      cases b with
      | true => rfl
      | false =>
          simp only [Bool.false_eq_true, if_false]
          rcases get_bitvec_slice_cases (false :: rest) 8
              ((readHeaderLen (false :: rest) + 1) * 8) with hs | ⟨l, hs⟩
          · rw [hs]
            rfl
          · rw [hs]
            dsimp only
            cases hd : deserH (bitsToBytes l) with
            | none => rfl
            | some h => rfl

/-- C10 counterexample: `bincode_zlib::decompress_pgn_data` is a
`decompress_pgn_data` entry point that reads no framing bit: on the empty
bit vector (zlib inflation of the empty byte sequence fails cleanly) it
returns an error value and does not panic, refuting the claim that every
`decompress_pgn_data` entry point panics on empty input. -/
theorem c10_counterexample :
    BincodeZlib.decompress_pgn_data (fun _ => none) [] =
      .error (.err "failed to deserialize pgn data") ∧
    isCrash (BincodeZlib.decompress_pgn_data (fun _ => none) []) = false := by
  constructor
  · rfl
  · rfl

/-! ## Witness helper lemmas -/

theorem unaryDec_encodes : ∀ (i : Nat) (rest : List Bool),
    unaryDec ((List.replicate i true ++ [false]) ++ rest) = some i := by
  intro i
  induction i with
  | zero => intro rest; rfl
  | succ n ih =>
      intro rest
      simp only [List.replicate_succ, List.cons_append]
      rw [unaryDec]
      rw [ih rest]
      rfl

theorem toySan_to_from (p s m : Nat) (h : toyEnv.sanToMove p s = some m) :
    toyEnv.sanFromMove p m = s := by
  have h2 : (if p < 2 ∧ (s = 3 ∨ s = 5) then some s else none) = some m := h
  split at h2
  · injection h2 with h2
    exact h2.symm
  · cases h2

/-! ## Witness theorems -/

/-- Witness for C1 at the concrete toy instantiation. -/
theorem c1_roundtrip_amended_witness :
    BincodeZlib.decompress_pgn_data toyDeserG (bytesToBits (toySerG toyGame)) =
      .ok toyGame ∧
    Huffman.decompress_pgn_data toyEnv toyHuffman toyDeserH
      [true, false, true, false] = .ok toyGame ∧
    DynamicHuffman.decompress_pgn_data_custom toyEnv (fun _ => toyHuffman)
      (fun t _ => t) toyDeserH [true, false, true, false] = .ok toyGame := by
  have h := c1_roundtrip_amended toyEnv toyHuffman (fun _ => toyHuffman) (fun t _ => t)
    toySerH toyDeserH toySerG toyDeserG toyGame
    (fun i rest => unaryDec_encodes i rest)
    (fun t i rest => unaryDec_encodes i rest)
    toySan_to_from
    (fun p s m _ => ⟨rfl, rfl⟩)
    (fun hx => absurd hx (by decide))
    (by decide) rfl (by decide) rfl
  exact ⟨h.1 _ rfl, h.2.1 _ rfl, h.2.2 (by decide) _ rfl⟩

/-- Witness for C3 at the concrete toy instantiation. -/
theorem c3_dynamic_decoder_step_witness :
    DynamicHuffman.decompress_moves_custom toyEnv (fun _ => toyHuffman) (fun t _ => t)
      [] [] 0 true [false] = (.ok [3], [([], [])]) :=
  (c3_dynamic_decoder_step toyEnv (fun _ => toyHuffman) (fun t _ => t) [] [] 0 true
    [false] 0 3 rfl rfl).1 (Or.inl rfl)

/-- Witness for C4 at the concrete toy instantiation. -/
theorem c4_dynamic_lockstep_witness :
    (DynamicHuffman.decompress_moves_custom toyEnv (fun _ => toyHuffman) (fun t _ => t)
      baseline_weights baseline_weights toyEnv.init true [false, true, false]).2 =
      [(baseline_weights, baseline_weights), (baseline_weights, baseline_weights)] :=
  c4_dynamic_lockstep toyEnv (fun _ => toyHuffman) (fun t _ => t)
    (fun t i rest => unaryDec_encodes i rest) toySan_to_from
    (fun p s m _ => ⟨rfl, rfl⟩) toyGame [false, true, false]
    [(baseline_weights, baseline_weights), (baseline_weights, baseline_weights)] rfl

/-- Witness for C5 at the concrete toy instantiation. -/
theorem c5_framing_layout_witness :
    Huffman.compress_pgn_data toyEnv toyHuffman toySerH toyGame =
      .ok (true :: [false, true, false]) ∧
    Huffman.compress_pgn_data toyEnv toyHuffman toySerH toyGameH =
      .ok (i8_to_bit_vec (Int.ofNat 1) ++ (bytesToBits [42] ++ [false, true, false])) :=
  ⟨(c5_framing_layout toyEnv toyHuffman toySerH toyGame [false, true, false] rfl).1
      (by decide),
    ((c5_framing_layout toyEnv toyHuffman toySerH toyGameH [false, true, false] rfl).2
      (by decide) (by decide) (by decide) (by decide)).1⟩

/-- Witness for C6 at concrete inputs exercising all three error paths. -/
theorem c6_static_error_paths_witness :
    Huffman.compress_moves toyEnv toyHuffman 5 [3] =
      .error (.err "san to_move failed: illegal move in input") ∧
    Huffman.compress_moves bigEnv toyHuffman 0 [290] =
      .error (.err "out of range integral type conversion attempted") ∧
    Huffman.decompress_moves toyEnv toyHuffman 5 [false] =
      .error (.err "Failed to decode move") :=
  ⟨(c6_static_error_paths toyEnv toyHuffman).1 5 3 [] rfl,
    (c6_static_error_paths bigEnv toyHuffman).2.1 0 290 [] 290 290 rfl (by decide)
      (by decide),
    (c6_static_error_paths toyEnv toyHuffman).2.2 5 [false] 0 rfl (by decide)⟩

/-- Witness for C7 at concrete inputs exercising both the overflow and the
success paths of both codecs. -/
theorem c7_header_length_bound_witness :
    (Huffman.compress_pgn_data toyEnv toyHuffman bigSerH toyGameH =
      .error (.err "out of range integral type conversion attempted") ∧
     DynamicHuffman.compress_pgn_data_custom toyEnv (fun _ => toyHuffman)
       (fun t _ => t) bigSerH toyGameH =
      .error (.err "out of range integral type conversion attempted")) ∧
    (Huffman.compress_pgn_data toyEnv toyHuffman toySerH toyGameH =
      .ok (i8_to_bit_vec (Int.ofNat 1) ++ (bytesToBits [42] ++ [false, true, false])) ∧
     DynamicHuffman.compress_pgn_data_custom toyEnv (fun _ => toyHuffman)
       (fun t _ => t) toySerH toyGameH =
      .ok (i8_to_bit_vec (Int.ofNat 1) ++ (bytesToBits [42] ++ [false, true, false]))) :=
  ⟨(c7_header_length_bound toyEnv toyHuffman (fun _ => toyHuffman) (fun t _ => t)
      bigSerH toyGameH [false, true, false] [false, true, false]
      [(baseline_weights, baseline_weights), (baseline_weights, baseline_weights)]
      (by decide) (by decide) rfl rfl).1 (by decide),
    (c7_header_length_bound toyEnv toyHuffman (fun _ => toyHuffman) (fun t _ => t)
      toySerH toyGameH [false, true, false] [false, true, false]
      [(baseline_weights, baseline_weights), (baseline_weights, baseline_weights)]
      (by decide) (by decide) rfl rfl).2 (by decide) (by decide)⟩

/-- Witness for C9 at the concrete instantiation. -/
theorem c9_string_level_rejection_witness :
    compress_pgn_str (fun _ => none)
      (Huffman.compress_pgn_data toyEnv toyHuffman toySerH) "foo bar" = [] ∧
    decompress_pgn_str (fun _ => "game")
      (Huffman.decompress_pgn_data toyEnv toyHuffman (fun _ => none))
      [0, 1, 2, 3] = .ok "" :=
  c9_string_level_rejection (fun _ => none) (fun _ => "game") toyEnv toyHuffman
    toySerH (fun _ => none) (Or.inl rfl) rfl

/-- Witness for C10 at the concrete instantiation. -/
theorem c10_empty_input_crash_witness :
    Huffman.decompress_pgn_data toyEnv toyHuffman toyDeserH [] =
      .error (.crash "index out of bounds: bit_vec[0] on empty bit vector") ∧
    isCrash (decompress_headers toyDeserH [true]) = false := by
  have h := c10_empty_input_crash toyEnv toyHuffman (fun _ => toyHuffman)
    (fun t _ => t) toyDeserH
  exact ⟨h.1, h.2.2 [true] (by decide)⟩

end CGN
